import Mathlib

/-!
# pulsa-backend: a shallow embedding of `main.go`

The service is a set of HTTP handlers over one MongoDB collection.  The
handlers are embedded as pure functions on an explicit collection value; the
driver calls they make (`Find`, `FindOne`, `InsertOne`, `FindOneAndUpdate`,
`DeleteOne`, `Aggregate`, `Decode`, `ObjectIDFromHex`, `json` encoding and
decoding) are embedded as the small functions below, following the documented
behaviour of the Go driver and of the store.
-/

namespace Pulsa

/-! ## Identifiers (`primitive.ObjectID`) -/

/-- A `primitive.ObjectID`: an array of exactly twelve bytes. -/
abbrev ObjectID := { l : List (Fin 256) // l.length = 12 }

/-- The zero identifier `primitive.NilObjectID`. -/
def NilObjectID : ObjectID := ⟨List.replicate 12 0, rfl⟩

/-- The text of `primitive.ErrInvalidHex`. -/
def ErrInvalidHex : String := "the provided hex string is not a valid ObjectID"

/-- One lower-case hexadecimal digit, as `hex.EncodeToString` writes it. -/
def hexDigit (n : Fin 16) : Char :=
  if n.val < 10 then Char.ofNat (48 + n.val) else Char.ofNat (87 + n.val)

/-- The value of one hexadecimal digit, as `hex.DecodeString` reads it: digits
and both cases of the letters a to f are accepted, anything else is an error. -/
def fromHexChar (c : Char) : Option (Fin 16) :=
  let n := c.toNat
  if 48 ≤ n ∧ n ≤ 57 then some (Fin.ofNat (n - 48))
  else if 97 ≤ n ∧ n ≤ 102 then some (Fin.ofNat (n - 87))
  else if 65 ≤ n ∧ n ≤ 70 then some (Fin.ofNat (n - 55))
  else none

/-- The encoding `hex.EncodeToString` of a byte string: two digits for each
byte, the high nibble first. -/
def encodeHex : List (Fin 256) → List Char
  | [] => []
  | b :: bs => hexDigit ⟨b.val / 16, by omega⟩ :: hexDigit ⟨b.val % 16, by omega⟩ :: encodeHex bs

/-- The decoding `hex.DecodeString`: pairs of digits become bytes; an odd
length or a character that is no digit is an error. -/
def decodeHex : List Char → Option (List (Fin 256))
  | [] => some []
  | [_] => none
  | hi :: lo :: rest =>
    match fromHexChar hi, fromHexChar lo, decodeHex rest with
    | some h, some l, some bs => some (⟨h.val * 16 + l.val, by omega⟩ :: bs)
    | _, _, _ => none

/-- The method `ObjectID.Hex`: the 24 digit text of an identifier. -/
def ObjectID.Hex (id : ObjectID) : String := ⟨encodeHex id.val⟩

/-- The function `primitive.ObjectIDFromHex`: a text that is not 24 long, or
that does not decode, gives the zero identifier and an error.  Go measures the
length in bytes and this definition in characters; the two agree on texts of
hexadecimal digits, and any other text fails in both, on the length or in the
decoding.  For a text of the right length that does not decode the driver
passes on the error text of `encoding/hex`; this definition gives the one text
in both cases, and every handler drops it. -/
def ObjectIDFromHex (s : String) : ObjectID × Option String :=
  if s.length ≠ 24 then (NilObjectID, some ErrInvalidHex)
  else
    match decodeHex s.data with
    | none => (NilObjectID, some ErrInvalidHex)
    | some bs => if h : bs.length = 12 then (⟨bs, h⟩, none) else (NilObjectID, some ErrInvalidHex)

/-- A character is a hexadecimal digit. -/
def isHexChar (c : Char) : Bool := (fromHexChar c).isSome

/-- A path identifier is syntactically valid: 24 hexadecimal digits. -/
def validHex (s : String) : Bool := s.length = 24 && s.data.all isHexChar

/-! ## Data model (`main.go`, lines 17 to 33) -/

/-- The least value of Go's `int` on a 64-bit platform. -/
def MinInt : Int := -9223372036854775808

/-- The greatest value of Go's `int` on a 64-bit platform. -/
def MaxInt : Int := 9223372036854775807

/-- An integer is a value of Go's `int`. -/
def fitsInt (n : Int) : Bool := decide (MinInt ≤ n) && decide (n ≤ MaxInt)

/-- The struct `Transaction`. -/
structure Transaction where
  ID : ObjectID
  Phone : String
  Name : String
  Operator : String
  Nominal : Int
  deriving DecidableEq

/-- The struct `ErrorResponse`. -/
structure ErrorResponse where
  StatusCode : Int
  ErrorMessage : String
  deriving DecidableEq

/-- The struct `Operator`. -/
structure Operator where
  ID : String
  Sum : Int
  deriving DecidableEq

/-- The zero value of a `Transaction`, what `var transaction Transaction` holds. -/
def Transaction.zero : Transaction :=
  { ID := NilObjectID, Phone := "", Name := "", Operator := "", Nominal := 0 }

/-- The zero value of an `Operator`, what `var operator Operator` holds. -/
def Operator.zero : Operator := { ID := "", Sum := 0 }

/-- A Go slice: `nil` until the first `append`. -/
inductive Slice (α : Type) where
  | nil : Slice α
  | elems (l : List α) : Slice α
  deriving DecidableEq

/-- The elements of a slice. -/
def Slice.toList {α : Type} : Slice α → List α
  | .nil => []
  | .elems l => l

/-- The builtin `append(s, x)`. -/
def Slice.append {α : Type} (s : Slice α) (x : α) : Slice α :=
  .elems (s.toList ++ [x])

/-! ## Stored documents -/

/-- A document of the collection as the store holds it.  Every document has an
`_id`; each other field is present or absent, and a present string may be
empty (the `$set` of an update writes it so). -/
structure Document where
  _id : ObjectID
  phone : Option String
  name : Option String
  operator : Option String
  nominal : Option Int
  deriving DecidableEq

/-- The state of the collection `gocrud.pulsa`. -/
abbrev Collection := List Document

/-- The tag `bson:"...,omitempty"` on a string field: the empty string is not
written. -/
def omitEmptyString (s : String) : Option String := if s = "" then none else some s

/-- The tag `bson:"...,omitempty"` on an `int` field: zero is not written. -/
def omitEmptyInt (n : Int) : Option Int := if n = 0 then none else some n

/-- The document `InsertOne` sends for a `Transaction`: zero fields are left
out, and when the `_id` is left out the driver puts in the identifier `newID`
it generates. -/
def Transaction.toDocument (newID : ObjectID) (t : Transaction) : Document :=
  { _id := if t.ID = NilObjectID then newID else t.ID
    phone := omitEmptyString t.Phone
    name := omitEmptyString t.Name
    operator := omitEmptyString t.Operator
    nominal := omitEmptyInt t.Nominal }

/-- Decoding a document into a `Transaction` variable: each field present in
the document overwrites the variable, each absent field leaves what the
variable held before (the driver does not zero the struct). -/
def Document.decodeInto (d : Document) (t : Transaction) : Transaction :=
  { ID := d._id
    Phone := d.phone.getD t.Phone
    Name := d.name.getD t.Name
    Operator := d.operator.getD t.Operator
    Nominal := d.nominal.getD t.Nominal }

/-! ## Request bodies -/

/-- What `json.NewDecoder(r.Body).Decode` finds in a request body: text that is
not JSON, or an object in which each of the five fields is absent (or of a
type that does not fit, which the decoder skips) or carries a value. -/
inductive RequestBody where
  | malformed : RequestBody
  | object (_id : Option ObjectID) (phone name operator : Option String)
      (nominal : Option Int) : RequestBody
  deriving DecidableEq

/-- The call `json.NewDecoder(r.Body).Decode(&transaction)` with its error
dropped: malformed text stores nothing; a field that is present is stored, one
that is absent is left alone, and a number that overflows `int` is skipped. -/
def RequestBody.decodeInto (b : RequestBody) (t : Transaction) : Transaction :=
  match b with
  | .malformed => t
  | .object i p n o m =>
    { ID := i.getD t.ID
      Phone := p.getD t.Phone
      Name := n.getD t.Name
      Operator := o.getD t.Operator
      Nominal := match m with
        | some v => if fitsInt v then v else t.Nominal
        | none => t.Nominal }

/-! ## The store -/

/-- Failures of the store that a request may meet: `call` is the error the
store call itself returns (connection lost, time limit exceeded), `cursor` the
error a cursor reports after it has delivered the given number of results. -/
structure Faults where
  call : Option String
  cursor : Option (Nat × String)
  deriving DecidableEq

/-- The store answers every call. -/
def Faults.none : Faults := { call := Option.none, cursor := Option.none }

/-- A cursor: the results it delivers and the error `cur.Err()` reports then. -/
structure Cursor (α : Type) where
  items : List α
  err : Option String

/-- The cursor over `results` under the faults `f`. -/
def Cursor.over {α : Type} (f : Faults) (results : List α) : Cursor α :=
  match f.cursor with
  | Option.none => { items := results, err := Option.none }
  | some (n, e) => { items := results.take n, err := some e }

/-- The text of `mongo.ErrNoDocuments`. -/
def ErrNoDocuments : String := "mongo: no documents in result"

/-- The text (shortened) of the store's write error for an `_id` already in use. -/
def ErrDuplicateKey : String := "E11000 duplicate key error"

/-- The text (shortened) of the driver's error for a double above the greatest
`int64`. -/
def ErrOverflow : String := "value overflows int64"

/-- The call `collection.Find(ctx, bson.M{})`. -/
def Find (f : Faults) (c : Collection) : Except String (Cursor Document) :=
  match f.call with
  | some e => .error e
  | Option.none => .ok (Cursor.over f c)

/-- The call `collection.FindOne(ctx, bson.M{"_id": id})`: the first document
with that `_id`, or `ErrNoDocuments`. -/
def FindOne (f : Faults) (c : Collection) (id : ObjectID) : Except String Document :=
  match f.call with
  | some e => .error e
  | Option.none =>
    match c.find? (fun d => d._id = id) with
    | Option.none => .error ErrNoDocuments
    | some d => .ok d

/-- The method `SingleResult.Decode`. -/
def SingleResult.Decode (r : Except String Document) (t : Transaction) :
    Except String Transaction :=
  match r with
  | .error e => .error e
  | .ok d => .ok (d.decodeInto t)

/-- The call `collection.InsertOne(ctx, transaction)`: the document is added
unless its `_id` is already in use. -/
def InsertOne (f : Faults) (newID : ObjectID) (c : Collection) (t : Transaction) :
    Except String ObjectID × Collection :=
  match f.call with
  | some e => (.error e, c)
  | Option.none =>
    let d := t.toDocument newID
    if c.any (fun x => x._id = d._id) then (.error ErrDuplicateKey, c)
    else (.ok d._id, c ++ [d])

/-- The update `$set` of `phone`, `name` and `operator` on one document. -/
def Document.set (d : Document) (phone name operator : String) : Document :=
  { d with phone := some phone, name := some name, operator := some operator }

/-- The first document with the given `_id` is replaced by its update. -/
def updateFirst (id : ObjectID) (u : Document → Document) : Collection → Collection
  | [] => []
  | d :: ds => if d._id = id then u d :: ds else d :: updateFirst id u ds

/-- The call `collection.FindOneAndUpdate(ctx, filter, update)` with default
options: the first matching document is updated and returned as it was before
the update; no match is `ErrNoDocuments`. -/
def FindOneAndUpdate (f : Faults) (c : Collection) (id : ObjectID)
    (phone name operator : String) : Except String Document × Collection :=
  match f.call with
  | some e => (.error e, c)
  | Option.none =>
    match c.find? (fun d => d._id = id) with
    | Option.none => (.error ErrNoDocuments, c)
    | some d => (.ok d, updateFirst id (fun x => x.set phone name operator) c)

/-- The first document with the given `_id` is removed. -/
def removeFirst (id : ObjectID) : Collection → Collection
  | [] => []
  | d :: ds => if d._id = id then ds else d :: removeFirst id ds

/-- The call `collection.DeleteOne(ctx, filter)`: at most one document goes,
and the result counts it. -/
def DeleteOne (f : Faults) (c : Collection) (id : ObjectID) : Except String Nat × Collection :=
  match f.call with
  | some e => (.error e, c)
  | Option.none =>
    if c.any (fun d => d._id = id) then (.ok 1, removeFirst id c) else (.ok 0, c)

/-! ## The aggregation pipeline -/

/-- A result of the `$group` stage: the key (`none` is BSON null, the key of
the documents without an `operator`) and the accumulated `$sum`. -/
structure Group where
  _id : Option String
  sum : Int
  deriving DecidableEq

/-- One document enters the groups: its `nominal` (nothing when absent) is
added to the group of its `operator`, which is created when new.  The store
widens the sum as needed, so the addition is that of the integers. -/
def addToGroups (d : Document) : List Group → List Group
  | [] => [{ _id := d.operator, sum := d.nominal.getD 0 }]
  | g :: gs =>
    if g._id = d.operator then { g with sum := g.sum + d.nominal.getD 0 } :: gs
    else g :: addToGroups d gs

/-- The stage `$group` with `_id: "$operator"` and `sum: {$sum: "$nominal"}`. -/
def groupStage (c : Collection) : List Group :=
  c.foldl (fun gs d => addToGroups d gs) []

/-- The order of `$sort` with `sum: -1`. -/
def sumDescending (a b : Group) : Prop := b.sum ≤ a.sum

instance : DecidableRel sumDescending := fun a b => inferInstanceAs (Decidable (b.sum ≤ a.sum))

/-- The stage `$sort` with `sum: -1`.  The store leaves the order of equal sums
open; this definition keeps them in the order of the groups. -/
def sortStage (gs : List Group) : List Group := gs.insertionSort sumDescending

/-- The call `collection.Aggregate` with the pipeline of group and sort.  The
option `SetMaxTime` changes no result: it only gives the call one more way to
fail, which is a fault of `call`. -/
def Aggregate (f : Faults) (c : Collection) : Except String (Cursor Group) :=
  match f.call with
  | some e => .error e
  | Option.none => .ok (Cursor.over f (sortStage (groupStage c)))

/-- The position of the leading bit of a number, by halving; `fuel` bounds the
number of halvings and the number itself is always enough of it. -/
def log2Aux : Nat → Nat → Nat
  | 0, _ => 0
  | fuel + 1, n => if n < 2 then 0 else log2Aux fuel (n / 2) + 1

/-- The position of the leading bit of a positive number. -/
def floorLog2 (n : Nat) : Nat := log2Aux n n

/-- The value of the double nearest to an integer: 53 bits are kept, and a tie
goes to the even neighbour. -/
def roundToDouble (n : Int) : Int :=
  let m := n.natAbs
  if m < 2 ^ 53 then n
  else
    let e := floorLog2 m - 52
    let q := m / 2 ^ e
    let r := m % 2 ^ e
    let q' := if 2 ^ e < 2 * r ∨ (2 * r = 2 ^ e ∧ q % 2 = 1) then q + 1 else q
    n.sign * ((q' * 2 ^ e : Nat) : Int)

/-- A number as the store returns it: a 64-bit integer, or a double (given by
its value, which is an integer for every double met here). -/
inductive Number where
  | int64 (n : Int) : Number
  | double (d : Int) : Number
  deriving DecidableEq

/-- The number the store returns for a `$sum` of integers: the sum itself
while it is a 64-bit integer, the nearest double once it is not. -/
def sumValue (s : Int) : Number :=
  if fitsInt s then .int64 s else .double (roundToDouble s)

/-- The conversion `int64(f)` of a double with no fraction: exact inside the
range, and the least `int64` outside it (what a 64-bit Intel processor gives). -/
def truncateToInt (d : Int) : Int := if fitsInt d then d else MinInt

/-- The driver's decoding of a number into an `int` field: an integer as it
is; a double is an error only when it is greater than `float64(math.MaxInt64)`,
which is 2 to the 63, and is converted otherwise. -/
def decodeInt : Number → Except String Int
  | .int64 n => .ok n
  | .double d => if MaxInt + 1 < d then .error ErrOverflow else .ok (truncateToInt d)

/-- Decoding a group into an `Operator` variable: a null `_id` leaves the `ID`
as it was, and the `sum` is decoded from the number the store returns. -/
def Group.decodeInto (g : Group) (o : Operator) : Except String Operator :=
  match decodeInt (sumValue g.sum) with
  | .error err => .error err
  | .ok n => .ok { ID := g._id.getD o.ID, Sum := n }

/-- A group decodes into an `Operator`. -/
def Group.decodes (g : Group) : Bool :=
  match g.decodeInto Operator.zero with
  | .error _ => false
  | .ok _ => true

/-! ## Responses -/

/-- A JSON value. -/
inductive Json where
  | null : Json
  | num (n : Int) : Json
  | str (s : String) : Json
  | arr (items : List Json) : Json
  | obj (fields : List (String × Json)) : Json

/-- A member of a JSON object under the tag `json:"...,omitempty"`. -/
def omitempty (name : String) (isEmpty : Bool) (v : Json) : List (String × Json) :=
  if isEmpty then [] else [(name, v)]

/-- The encoding `json.Marshal` of a `Transaction`: the `_id` is an array and
never counts as empty. -/
def Transaction.toJson (t : Transaction) : Json :=
  .obj ([("_id", .str t.ID.Hex)]
    ++ omitempty "phone" (t.Phone = "") (.str t.Phone)
    ++ omitempty "name" (t.Name = "") (.str t.Name)
    ++ omitempty "operator" (t.Operator = "") (.str t.Operator)
    ++ omitempty "nominal" (t.Nominal = 0) (.num t.Nominal))

/-- The encoding `json.Marshal` of an `Operator`. -/
def Operator.toJson (o : Operator) : Json :=
  .obj (omitempty "_id" (o.ID = "") (.str o.ID) ++ omitempty "sum" (o.Sum = 0) (.num o.Sum))

/-- The encoding `json.Marshal` of an `ErrorResponse`. -/
def ErrorResponse.toJson (e : ErrorResponse) : Json :=
  .obj [("status", .num e.StatusCode), ("message", .str e.ErrorMessage)]

/-- The encoding `json.Marshal` of a slice: a nil slice is `null`. -/
def Slice.toJson {α : Type} (enc : α → Json) : Slice α → Json
  | .nil => .null
  | .elems l => .arr (l.map enc)

/-- The Go value a handler encodes into the response. -/
inductive Payload where
  | transactions (ts : Slice Transaction) : Payload
  | transaction (t : Transaction) : Payload
  | insertOneResult (InsertedID : ObjectID) : Payload
  | deleteResult (DeletedCount : Nat) : Payload
  | operators (os : Slice Operator) : Payload
  | errorResponse (e : ErrorResponse) : Payload
  deriving DecidableEq

/-- The JSON text written for a payload. -/
def Payload.toJson : Payload → Json
  | .transactions ts => ts.toJson Transaction.toJson
  | .transaction t => t.toJson
  | .insertOneResult i => .obj [("InsertedID", .str i.Hex)]
  | .deleteResult n => .obj [("DeletedCount", .num n)]
  | .operators os => os.toJson Operator.toJson
  | .errorResponse e => e.toJson

/-- What a request ends in: the process exits in `log.Fatal` and nothing is
written, or a response with a status and a body is written. -/
inductive Outcome where
  | fatal (msg : String) : Outcome
  | written (status : Nat) (payload : Payload) : Outcome
  deriving DecidableEq

/-- The constant `http.StatusInternalServerError`. -/
def StatusInternalServerError : Nat := 500

/-- The status of a response whose handler never calls `WriteHeader`. -/
def StatusOK : Nat := 200

/-! ## Handlers (`main.go`, lines 66 to 236) -/

/-- The function `getError`. -/
def getError (err : String) : Outcome :=
  let response : ErrorResponse :=
    { StatusCode := StatusInternalServerError, ErrorMessage := err }
  .written response.StatusCode.toNat (.errorResponse response)

/-- The loop of `readAllTransaction`: every result is decoded into a fresh
variable and appended. -/
def decodeTransactions (items : List Document) : Slice Transaction :=
  items.foldl (fun transactions d => transactions.append (d.decodeInto Transaction.zero)) .nil

/-- The handler `readAllTransaction`. -/
def readAllTransaction (f : Faults) (c : Collection) : Outcome :=
  match Find f c with
  | .error err => .fatal err
  | .ok cur =>
    let transactions := decodeTransactions cur.items
    match cur.err with
    | some err => .fatal err
    | Option.none => .written StatusOK (.transactions transactions)

/-- The handler `readTransactionById`. -/
def readTransactionById (f : Faults) (c : Collection) (path : String) : Outcome :=
  let transaction := Transaction.zero
  let id := (ObjectIDFromHex path).1
  match SingleResult.Decode (FindOne f c id) transaction with
  | .error err => getError err
  | .ok transaction => .written StatusOK (.transaction transaction)

/-- The handler `createTransaction`. -/
def createTransaction (f : Faults) (newID : ObjectID) (c : Collection) (body : RequestBody) :
    Outcome × Collection :=
  let transaction := body.decodeInto Transaction.zero
  match InsertOne f newID c transaction with
  | (.error err, c') => (getError err, c')
  | (.ok result, c') => (.written StatusOK (.insertOneResult result), c')

/-- The handler `updateTransaction`. -/
def updateTransaction (f : Faults) (c : Collection) (path : String) (body : RequestBody) :
    Outcome × Collection :=
  let id := (ObjectIDFromHex path).1
  let transaction := body.decodeInto Transaction.zero
  match FindOneAndUpdate f c id transaction.Phone transaction.Name transaction.Operator with
  | (r, c') =>
    match SingleResult.Decode r transaction with
    | .error err => (getError err, c')
    | .ok transaction => (.written StatusOK (.transaction transaction), c')

/-- The handler `deleteTransaction`. -/
def deleteTransaction (f : Faults) (c : Collection) (path : String) : Outcome × Collection :=
  let id := (ObjectIDFromHex path).1
  match DeleteOne f c id with
  | (.error err, c') => (.fatal err, c')
  | (.ok deleteResult, c') => (.written StatusOK (.deleteResult deleteResult), c')

/-- The loop of `readLeaderboard`: every result is decoded into a fresh
variable and appended; a result that does not decode ends in `log.Fatal`. -/
def decodeOperators : List Group → Slice Operator → Except String (Slice Operator)
  | [], operators => .ok operators
  | g :: gs, operators =>
    match g.decodeInto Operator.zero with
    | .error err => .error err
    | .ok operator => decodeOperators gs (operators.append operator)

/-- The handler `readLeaderboard`. -/
def readLeaderboard (f : Faults) (c : Collection) : Outcome :=
  match Aggregate f c with
  | .error err => .fatal err
  | .ok cur =>
    match decodeOperators cur.items .nil with
    | .error err => .fatal err
    | .ok operators =>
      match cur.err with
      | some err => getError err
      | Option.none => .written StatusOK (.operators operators)

/-! ## Totals and sample data -/

/-- The arithmetic total of `nominal` over the documents whose `operator` is
the key `k`; an absent `nominal` counts as nothing. -/
def totalNominal (c : Collection) (k : Option String) : Int :=
  ((c.filter (fun d => d.operator = k)).map (fun d => d.nominal.getD 0)).sum

/-- The entry `readLeaderboard` shows for a group. -/
def Group.toOperator (g : Group) : Operator := { ID := g._id.getD "", Sum := g.sum }

/-- The identifier whose last byte is `b` and whose other bytes are zero. -/
def sampleID (b : Fin 256) : ObjectID := ⟨List.replicate 11 0 ++ [b], by simp⟩

/-- The sum accumulated in the groups of key `k`. -/
def groupTotal (gs : List Group) (k : Option String) : Int :=
  ((gs.filter (fun g => g._id = k)).map (fun g => g.sum)).sum

instance : IsTotal Group sumDescending :=
  ⟨fun a b => by unfold sumDescending; exact le_total b.sum a.sum⟩

instance : IsTrans Group sumDescending :=
  ⟨fun a b c hab hbc => by unfold sumDescending at *; exact le_trans hbc hab⟩

/-- The arithmetic total of `nominal` over the records that read back with the
operator `s`: an absent `operator` reads as the empty string, an absent
`nominal` as zero. -/
def operatorTotal (c : Collection) (s : String) : Int :=
  ((c.filter (fun d => d.operator.getD "" = s)).map (fun d => d.nominal.getD 0)).sum

/-- The collection after three requests on an empty one: a create without an
operator, a create with operator X, and an update of the second record by a
body that leaves the operator out. -/
def mixedCollection : Collection :=
  let c1 := (createTransaction Faults.none (sampleID 1) []
    (.object Option.none (some "0811") (some "A") Option.none (some 5))).2
  let c2 := (createTransaction Faults.none (sampleID 2) c1
    (.object Option.none (some "0822") (some "B") (some "X") (some 7))).2
  (updateTransaction Faults.none c2 (sampleID 2).Hex
    (.object Option.none (some "0822") (some "B") Option.none Option.none)).2

/-- A stored record with every field present. -/
def sampleDocument (b : Fin 256) (phone name operator : String) (nominal : Int) : Document :=
  { _id := sampleID b, phone := some phone, name := some name, operator := some operator,
    nominal := some nominal }

/-- A stored record whose `_id` is the zero identifier. -/
def zeroIdDocument : Document :=
  { _id := NilObjectID, phone := some "0811", name := some "A", operator := some "X",
    nominal := some 10000 }

/-- The collection after one create whose body carries only a name. -/
def nameOnlyCollection : Collection :=
  (createTransaction Faults.none (sampleID 1) []
    (.object Option.none Option.none (some "A") Option.none Option.none)).2

/-- The collection after three creates on an empty one: operator X with the
greatest `int`, operator X with 1, and operator Y with 100. -/
def wrappedCollection : Collection :=
  let c1 := (createTransaction Faults.none (sampleID 1) []
    (.object Option.none (some "0811") (some "A") (some "X") (some MaxInt))).2
  let c2 := (createTransaction Faults.none (sampleID 2) c1
    (.object Option.none (some "0822") (some "B") (some "X") (some 1))).2
  (createTransaction Faults.none (sampleID 3) c2
    (.object Option.none (some "0833") (some "C") (some "Y") (some 100))).2

/-! # Theorems -/

/-! ## Identifiers -/

theorem fromHexChar_hexDigit (n : Fin 16) : fromHexChar (hexDigit n) = some n := by
  fin_cases n <;> rfl

theorem decodeHex_encodeHex (bs : List (Fin 256)) : decodeHex (encodeHex bs) = some bs := by
  induction bs with
  | nil => rfl
  | cons b bs ih =>
    simp only [encodeHex, decodeHex, fromHexChar_hexDigit, ih]
    congr 2
    apply Fin.ext
    simp only
    omega

theorem encodeHex_length (bs : List (Fin 256)) : (encodeHex bs).length = 2 * bs.length := by
  induction bs with
  | nil => rfl
  | cons b bs ih => simp [encodeHex, ih]; omega

theorem ObjectIDFromHex_Hex (id : ObjectID) : ObjectIDFromHex id.Hex = (id, none) := by
  obtain ⟨bs, hbs⟩ := id
  have hlen : (ObjectID.Hex ⟨bs, hbs⟩).length = 24 := by
    show (encodeHex bs).length = 24
    rw [encodeHex_length, hbs]
  unfold ObjectIDFromHex
  rw [if_neg (by simp [hlen])]
  show (match decodeHex (encodeHex bs) with
    | none => (NilObjectID, some ErrInvalidHex)
    | some bs' => if h : bs'.length = 12 then ((⟨bs', h⟩ : ObjectID), none)
        else (NilObjectID, some ErrInvalidHex)) = _
  rw [decodeHex_encodeHex]
  simp [hbs]

theorem decodeHex_isSome_of_all : ∀ (cs : List Char) (n : Nat), cs.length = 2 * n →
    cs.all isHexChar = true → ∃ bs, decodeHex cs = some bs ∧ bs.length = n
  | [], n, hl, _ => ⟨[], rfl, by simp only [List.length_nil] at hl ⊢; omega⟩
  | [_], n, hl, _ => by simp at hl; omega
  | hi :: lo :: rest, n, hl, hall => by
    simp only [List.all_cons, Bool.and_eq_true, isHexChar] at hall
    obtain ⟨h1, h2, h3⟩ := hall
    have hn : rest.length = 2 * (n - 1) := by simp at hl; omega
    obtain ⟨bs, hbs, hlen⟩ := decodeHex_isSome_of_all rest (n - 1) hn h3
    obtain ⟨a, ha⟩ := Option.isSome_iff_exists.mp h1
    obtain ⟨b, hb⟩ := Option.isSome_iff_exists.mp h2
    refine ⟨⟨a.val * 16 + b.val, by omega⟩ :: bs, ?_, ?_⟩
    · simp only [decodeHex, ha, hb, hbs]
    · simp only [List.length_cons] at hl ⊢; omega

theorem decodeHex_all : ∀ (cs : List Char) (bs : List (Fin 256)), decodeHex cs = some bs →
    cs.all isHexChar = true
  | [], _, _ => rfl
  | [_], _, h => by simp [decodeHex] at h
  | hi :: lo :: rest, bs, h => by
    simp only [decodeHex] at h
    cases h1 : fromHexChar hi with
    | none => simp [h1] at h
    | some a =>
      cases h2 : fromHexChar lo with
      | none => simp [h1, h2] at h
      | some b =>
        cases h3 : decodeHex rest with
        | none => simp [h1, h2, h3] at h
        | some bs' =>
          simp [List.all_cons, isHexChar, h1, h2, decodeHex_all rest bs' h3]

/-- A path that is not 24 hexadecimal digits parses to the zero identifier. -/
theorem ObjectIDFromHex_invalid (s : String) (h : validHex s = false) :
    ObjectIDFromHex s = (NilObjectID, some ErrInvalidHex) := by
  unfold ObjectIDFromHex
  by_cases hl : s.length = 24
  · rw [if_neg (by simp [hl])]
    cases hd : decodeHex s.data with
    | none => rfl
    | some bs =>
      have := decodeHex_all s.data bs hd
      simp [validHex, hl, this] at h
  · rw [if_pos hl]

/-! ## Updates -/

theorem updateFirst_map_nominal (id : ObjectID) (p n o : String) (c : Collection) :
    (updateFirst id (fun x => x.set p n o) c).map (fun d => (d._id, d.nominal))
      = c.map (fun d => (d._id, d.nominal)) := by
  induction c with
  | nil => rfl
  | cons d ds ih =>
    simp only [updateFirst]
    split
    · simp [Document.set]
    · simp [ih]

theorem FindOneAndUpdate_map_nominal (f : Faults) (c : Collection) (id : ObjectID)
    (p n o : String) :
    (FindOneAndUpdate f c id p n o).2.map (fun d => (d._id, d.nominal))
      = c.map (fun d => (d._id, d.nominal)) := by
  unfold FindOneAndUpdate
  split
  · rfl
  · split
    · rfl
    · exact updateFirst_map_nominal id p n o c

theorem updateTransaction_snd (f : Faults) (c : Collection) (path : String) (body : RequestBody) :
    (updateTransaction f c path body).2
      = (FindOneAndUpdate f c (ObjectIDFromHex path).1
          (body.decodeInto Transaction.zero).Phone (body.decodeInto Transaction.zero).Name
          (body.decodeInto Transaction.zero).Operator).2 := by
  unfold updateTransaction
  simp only
  split <;> rfl

theorem updateFirst_split (id : ObjectID) (u : Document → Document) :
    ∀ (c : Collection) (d : Document), c.find? (fun x => x._id = id) = some d →
      ∃ pre post, c = pre ++ d :: post ∧ (∀ x ∈ pre, x._id ≠ id) ∧
        updateFirst id u c = pre ++ u d :: post
  | [], d, h => by simp at h
  | x :: xs, d, h => by
    by_cases hx : x._id = id
    · simp [List.find?, hx] at h
      subst h
      exact ⟨[], xs, rfl, by simp, by simp [updateFirst, hx]⟩
    · simp [List.find?, hx] at h
      obtain ⟨pre, post, h1, h2, h3⟩ := updateFirst_split id u xs d h
      refine ⟨x :: pre, post, by simp [h1], ?_, by simp [updateFirst, hx, h3]⟩
      intro y hy
      rcases List.mem_cons.mp hy with rfl | hy
      · exact hx
      · exact h2 y hy

/-- C3: for every collection, path id and request body (and whatever the store
answers), `updateTransaction` leaves the `nominal` of every stored record as it
was: the records keep their order, their identifiers and their `nominal`. -/
theorem updateTransaction_preserves_nominal (f : Faults) (c : Collection) (path : String)
    (body : RequestBody) :
    (updateTransaction f c path body).2.map (fun d => (d._id, d.nominal))
      = c.map (fun d => (d._id, d.nominal)) := by
  rw [updateTransaction_snd]
  exact FindOneAndUpdate_map_nominal _ _ _ _ _ _

theorem decodeInto_zero_fields (i : Option ObjectID) (p n o : Option String) (m : Option Int) :
    ((RequestBody.object i p n o m).decodeInto Transaction.zero).Phone = p.getD ""
    ∧ ((RequestBody.object i p n o m).decodeInto Transaction.zero).Name = n.getD ""
    ∧ ((RequestBody.object i p n o m).decodeInto Transaction.zero).Operator = o.getD "" :=
  ⟨rfl, rfl, rfl⟩

/-- C10: when the store answers and the path id is that of a stored record
`d`, `updateTransaction` succeeds and the collection afterwards is the one
before with `d` (the first record of that id) replaced by a record of the same
id and `nominal` whose `phone`, `name` and `operator` are the values decoded
from the body; every other record is unchanged.  A field the body omits, and
every field of a malformed body, is decoded as the empty string. -/
theorem updateTransaction_sets_fields (f : Faults) (c : Collection) (path : String)
    (body : RequestBody) (d : Document) (hf : f.call = Option.none)
    (hd : c.find? (fun x => x._id = (ObjectIDFromHex path).1) = some d) :
    (∃ t, (updateTransaction f c path body).1 = .written StatusOK (.transaction t))
    ∧ (∃ pre post, c = pre ++ d :: post ∧ (∀ x ∈ pre, x._id ≠ (ObjectIDFromHex path).1) ∧
        (updateTransaction f c path body).2 = pre ++
          { _id := d._id
            phone := some (body.decodeInto Transaction.zero).Phone
            name := some (body.decodeInto Transaction.zero).Name
            operator := some (body.decodeInto Transaction.zero).Operator
            nominal := d.nominal } :: post)
    ∧ RequestBody.malformed.decodeInto Transaction.zero = Transaction.zero
    ∧ (∀ (i : Option ObjectID) (p n o : Option String) (m : Option Int),
        ((RequestBody.object i p n o m).decodeInto Transaction.zero).Phone = p.getD ""
        ∧ ((RequestBody.object i p n o m).decodeInto Transaction.zero).Name = n.getD ""
        ∧ ((RequestBody.object i p n o m).decodeInto Transaction.zero).Operator = o.getD "") := by
  refine ⟨?_, ?_, rfl, decodeInto_zero_fields⟩
  · simp [updateTransaction, FindOneAndUpdate, hf, hd, SingleResult.Decode]
  · obtain ⟨pre, post, h1, h2, h3⟩ := updateFirst_split (ObjectIDFromHex path).1
      (fun x => x.set (body.decodeInto Transaction.zero).Phone
        (body.decodeInto Transaction.zero).Name (body.decodeInto Transaction.zero).Operator) c d hd
    refine ⟨pre, post, h1, h2, ?_⟩
    rw [updateTransaction_snd]
    simp only [FindOneAndUpdate, hf, hd, h3]
    rfl

/-! ## Lookups, inserts and deletes -/

theorem find?_eq_none_of_not_mem (id : ObjectID) (c : Collection)
    (h : id ∉ c.map (fun d => d._id)) : c.find? (fun d => d._id = id) = Option.none := by
  rw [List.find?_eq_none]
  intro d hd hid
  exact h (List.mem_map.mpr ⟨d, hd, of_decide_eq_true hid⟩)

theorem removeFirst_not_mem (id : ObjectID) :
    ∀ (c : Collection), (c.map (fun d => d._id)).Nodup → id ∉ (removeFirst id c).map (fun d => d._id)
  | [], _ => by simp [removeFirst]
  | d :: ds, hnd => by
    simp only [List.map_cons, List.nodup_cons] at hnd
    by_cases hd : d._id = id
    · simp only [removeFirst, hd, if_true]
      rw [← hd]
      exact hnd.1
    · simp only [removeFirst, hd, if_false, List.map_cons, List.mem_cons, not_or]
      exact ⟨fun h => hd h.symm, removeFirst_not_mem id ds hnd.2⟩

theorem readTransactionById_absent (f : Faults) (c : Collection) (path : String)
    (h : (ObjectIDFromHex path).1 ∉ c.map (fun d => d._id)) :
    readTransactionById f c path = getError (f.call.getD ErrNoDocuments) := by
  unfold readTransactionById FindOne
  cases hf : f.call with
  | some e => rfl
  | none =>
    simp only [find?_eq_none_of_not_mem _ c h]
    rfl

/-- C7: in a collection whose `_id`s are unique, after `deleteTransaction` on
the id of a stored record, `readTransactionById` for the same id answers with
the uniform error response: status 500 and the body with `status` 500 and the
store's error text as `message` (no documents in result, or the text of the
failure the store call meets). -/
theorem deleteTransaction_then_read_fails (f : Faults) (c : Collection) (path : String)
    (hnd : (c.map (fun d => d._id)).Nodup)
    (hmem : (ObjectIDFromHex path).1 ∈ c.map (fun d => d._id)) :
    (deleteTransaction Faults.none c path).1 = .written StatusOK (.deleteResult 1)
    ∧ readTransactionById f (deleteTransaction Faults.none c path).2 path
        = .written 500 (.errorResponse
            { StatusCode := 500, ErrorMessage := f.call.getD ErrNoDocuments })
    ∧ (Payload.errorResponse
          { StatusCode := 500, ErrorMessage := f.call.getD ErrNoDocuments }).toJson
        = .obj [("status", .num 500), ("message", .str (f.call.getD ErrNoDocuments))] := by
  have hany : c.any (fun d => d._id = (ObjectIDFromHex path).1) = true := by
    obtain ⟨d, hd, hid⟩ := List.mem_map.mp hmem
    exact List.any_eq_true.mpr ⟨d, hd, decide_eq_true hid⟩
  have hc : (deleteTransaction Faults.none c path).2 = removeFirst (ObjectIDFromHex path).1 c := by
    simp [deleteTransaction, DeleteOne, Faults.none, hany]
  refine ⟨?_, ?_, rfl⟩
  · simp [deleteTransaction, DeleteOne, Faults.none, hany]
  · rw [hc, readTransactionById_absent f _ path (removeFirst_not_mem _ c hnd)]
    rfl

theorem omitEmptyString_getD (s : String) : (omitEmptyString s).getD "" = s := by
  unfold omitEmptyString
  split
  · next h => simp [h]
  · rfl

theorem omitEmptyInt_getD (n : Int) : (omitEmptyInt n).getD 0 = n := by
  unfold omitEmptyInt
  split
  · next h => simp [h]
  · rfl

theorem toDocument_decodeInto_zero (newID : ObjectID) (t : Transaction) :
    (t.toDocument newID).decodeInto Transaction.zero
      = { t with ID := (t.toDocument newID)._id } := by
  simp [Document.decodeInto, Transaction.toDocument, Transaction.zero, omitEmptyString_getD,
    omitEmptyInt_getD]

theorem readTransactionById_inserted (c : Collection) (d : Document)
    (h : c.any (fun x => x._id = d._id) = false) :
    readTransactionById Faults.none (c ++ [d]) d._id.Hex
      = .written StatusOK (.transaction (d.decodeInto Transaction.zero)) := by
  have hfind : (c ++ [d]).find? (fun x => x._id = d._id) = some d := by
    rw [List.find?_append]
    have : c.find? (fun x => x._id = d._id) = Option.none := by
      rw [List.find?_eq_none]
      intro x hx hid
      have hany : c.any (fun x => decide (x._id = d._id)) = true :=
        List.any_eq_true.mpr ⟨x, hx, hid⟩
      rw [h] at hany
      exact Bool.noConfusion hany
    simp [this]
  simp [readTransactionById, FindOne, Faults.none, ObjectIDFromHex_Hex, hfind,
    SingleResult.Decode]

theorem createTransaction_success (f : Faults) (newID : ObjectID) (c c' : Collection)
    (body : RequestBody) (i : ObjectID)
    (h : createTransaction f newID c body = (.written StatusOK (.insertOneResult i), c')) :
    i = ((body.decodeInto Transaction.zero).toDocument newID)._id
    ∧ c' = c ++ [(body.decodeInto Transaction.zero).toDocument newID] := by
  unfold createTransaction InsertOne at h
  cases hf : f.call with
  | some e => simp [hf, getError] at h
  | none =>
    by_cases hany : c.any (fun x => x._id = ((body.decodeInto Transaction.zero).toDocument newID)._id)
    · simp [hf, hany, getError] at h
    · simp [hf, hany] at h
      exact ⟨h.1.symm, h.2.symm⟩

theorem createTransaction_fresh (f : Faults) (newID : ObjectID) (c c' : Collection)
    (body : RequestBody) (i : ObjectID)
    (h : createTransaction f newID c body = (.written StatusOK (.insertOneResult i), c')) :
    c.any (fun x => x._id = ((body.decodeInto Transaction.zero).toDocument newID)._id) = false := by
  unfold createTransaction InsertOne at h
  cases hf : f.call with
  | some e => simp [hf, getError] at h
  | none =>
    by_cases hany : c.any (fun x => x._id = ((body.decodeInto Transaction.zero).toDocument newID)._id)
    · simp [hf, hany, getError] at h
    · simpa using hany

/-- C4: when `createTransaction` succeeds and returns the inserted id, then
`readTransactionById` with the text of that id on the resulting collection
succeeds, and the document it returns has that id and the `phone`, `name`,
`operator` and `nominal` decoded from the request body. -/
theorem createTransaction_then_read (f : Faults) (newID : ObjectID) (c c' : Collection)
    (body : RequestBody) (i : ObjectID)
    (h : createTransaction f newID c body = (.written StatusOK (.insertOneResult i), c')) :
    readTransactionById Faults.none c' i.Hex
      = .written StatusOK (.transaction
          { ID := i
            Phone := (body.decodeInto Transaction.zero).Phone
            Name := (body.decodeInto Transaction.zero).Name
            Operator := (body.decodeInto Transaction.zero).Operator
            Nominal := (body.decodeInto Transaction.zero).Nominal }) := by
  have hfresh := createTransaction_fresh f newID c c' body i h
  obtain ⟨hi, hc⟩ := createTransaction_success f newID c c' body i h
  rw [hi, hc, readTransactionById_inserted c _ hfresh, toDocument_decodeInto_zero]

/-! ## The aggregation pipeline -/

theorem addToGroups_keys (d : Document) :
    ∀ gs : List Group, (addToGroups d gs).map (fun g => g._id)
      = if d.operator ∈ gs.map (fun g => g._id) then gs.map (fun g => g._id)
        else gs.map (fun g => g._id) ++ [d.operator]
  | [] => by simp [addToGroups]
  | g :: gs => by
    by_cases hg : g._id = d.operator
    · simp [addToGroups, hg]
    · have hg' : ¬ d.operator = g._id := fun h => hg h.symm
      simp only [addToGroups, hg, if_false, List.map_cons, List.mem_cons, hg', false_or,
        addToGroups_keys d gs]
      split <;> simp

theorem addToGroups_nodup (d : Document) (gs : List Group)
    (h : (gs.map (fun g => g._id)).Nodup) : ((addToGroups d gs).map (fun g => g._id)).Nodup := by
  rw [addToGroups_keys]
  split
  · exact h
  · next hmem =>
    rw [List.nodup_append]
    refine ⟨h, List.nodup_singleton _, ?_⟩
    intro a ha hb
    rw [List.mem_singleton] at hb
    subst hb
    exact hmem ha

theorem addToGroups_total (d : Document) (k : Option String) :
    ∀ gs : List Group, groupTotal (addToGroups d gs) k
      = groupTotal gs k + (if d.operator = k then d.nominal.getD 0 else 0)
  | [] => by
    by_cases hk : d.operator = k <;> simp [addToGroups, groupTotal, List.filter, hk]
  | g :: gs => by
    have ih := addToGroups_total d k gs
    unfold groupTotal at ih ⊢
    by_cases hg : g._id = d.operator
    · by_cases hk : d.operator = k
      · subst hk
        simp only [addToGroups, hg, if_true, List.filter, decide_True, List.map_cons,
          List.sum_cons]
        omega
      · have hgk : ¬ g._id = k := fun h => hk (hg.symm.trans h)
        simp only [addToGroups, hg, if_true, List.filter, hk, decide_False, if_false, add_zero]
    · by_cases hgk : g._id = k
      · subst hgk
        have hk : ¬ d.operator = g._id := fun h => hg h.symm
        simp only [addToGroups, hg, if_false, List.filter, decide_True, List.map_cons,
          List.sum_cons, ih, hk]
        omega
      · simp only [addToGroups, hg, if_false, List.filter, hgk, decide_False, ih]

theorem totalNominal_cons (d : Document) (c : Collection) (k : Option String) :
    totalNominal (d :: c) k = (if d.operator = k then d.nominal.getD 0 else 0) + totalNominal c k := by
  unfold totalNominal
  by_cases hk : d.operator = k <;> simp [List.filter, hk]

theorem foldl_addToGroups (c : Collection) :
    ∀ acc : List Group, (acc.map (fun g => g._id)).Nodup →
      ((c.foldl (fun gs d => addToGroups d gs) acc).map (fun g => g._id)).Nodup
      ∧ (∀ k, k ∈ (c.foldl (fun gs d => addToGroups d gs) acc).map (fun g => g._id)
            ↔ k ∈ acc.map (fun g => g._id) ∨ k ∈ c.map (fun d => d.operator))
      ∧ (∀ k, groupTotal (c.foldl (fun gs d => addToGroups d gs) acc) k
            = groupTotal acc k + totalNominal c k) := by
  induction c with
  | nil => intro acc h; simp [totalNominal, h]
  | cons d ds ih =>
    intro acc h
    obtain ⟨h1, h2, h3⟩ := ih (addToGroups d acc) (addToGroups_nodup d acc h)
    refine ⟨h1, ?_, ?_⟩
    · intro k
      rw [List.foldl_cons, h2 k, addToGroups_keys]
      split
      · next hmem =>
        simp only [List.map_cons, List.mem_cons]
        constructor
        · rintro (h | h)
          · exact Or.inl h
          · exact Or.inr (Or.inr h)
        · rintro (h | h | h)
          · exact Or.inl h
          · exact Or.inl (h ▸ hmem)
          · exact Or.inr h
      · simp only [List.mem_append, List.mem_singleton, List.map_cons, List.mem_cons]
        tauto
    · intro k
      rw [List.foldl_cons, h3 k, addToGroups_total, totalNominal_cons]
      omega

theorem groupTotal_of_mem :
    ∀ (gs : List Group), (gs.map (fun g => g._id)).Nodup → ∀ g ∈ gs, groupTotal gs g._id = g.sum
  | [], _, g, hg => by simp at hg
  | x :: xs, hnd, g, hg => by
    simp only [List.map_cons, List.nodup_cons] at hnd
    have ih := groupTotal_of_mem xs hnd.2
    unfold groupTotal at ih ⊢
    rcases List.mem_cons.mp hg with rfl | hmem
    · have hnone : xs.filter (fun y => decide (y._id = g._id)) = [] := by
        rw [List.filter_eq_nil_iff]
        intro y hy hyk
        exact hnd.1 (List.mem_map.mpr ⟨y, hy, of_decide_eq_true hyk⟩)
      simp [List.filter, hnone]
    · have hx : ¬ x._id = g._id := fun h => hnd.1 (h ▸ List.mem_map.mpr ⟨g, hmem, rfl⟩)
      simp only [List.filter, hx, decide_False]
      exact ih g hmem

/-- The groups of a collection: one for each operator key that occurs, with
the total of `nominal` over the documents of that key. -/
theorem groupStage_spec (c : Collection) :
    ((groupStage c).map (fun g => g._id)).Nodup
    ∧ (∀ k, k ∈ (groupStage c).map (fun g => g._id) ↔ k ∈ c.map (fun d => d.operator))
    ∧ (∀ g ∈ groupStage c, g.sum = totalNominal c g._id) := by
  obtain ⟨h1, h2, h3⟩ := foldl_addToGroups c [] (by simp)
  refine ⟨h1, ?_, ?_⟩
  · intro k
    have := h2 k
    simpa using this
  · intro g hg
    have := h3 g._id
    rw [groupTotal_of_mem _ h1 g hg] at this
    simpa [groupTotal] using this

theorem sortStage_perm (gs : List Group) : (sortStage gs).Perm gs :=
  List.perm_insertionSort sumDescending gs

theorem sortStage_sorted (gs : List Group) : (sortStage gs).Sorted sumDescending :=
  List.sorted_insertionSort sumDescending gs

theorem log2Aux_spec : ∀ (fuel n : Nat), 0 < n → n ≤ fuel →
    2 ^ log2Aux fuel n ≤ n ∧ n < 2 ^ (log2Aux fuel n + 1)
  | 0, n, hpos, hle => by omega
  | fuel + 1, n, hpos, hle => by
    unfold log2Aux
    split
    · next h => simp; omega
    · next h =>
      have ih := log2Aux_spec fuel (n / 2) (by omega) (by omega)
      rw [pow_succ, pow_succ 2 (log2Aux fuel (n / 2) + 1)]
      omega

/-- The leading bit: a positive number lies between the power of two at that
position and the next. -/
theorem floorLog2_spec (n : Nat) (h : 0 < n) :
    2 ^ floorLog2 n ≤ n ∧ n < 2 ^ (floorLog2 n + 1) :=
  log2Aux_spec n n h (Nat.le_refl n)

/-- The decoding of a sum at the edges of `int`: a total of 2 to the 63, and
any total up to half a step of the doubles above it, comes back as the least
`int`; so does a total below the range; a total further above is an error. -/
theorem decodeInt_sumValue_edges :
    (decodeInt (sumValue MaxInt)).toOption = some MaxInt
    ∧ (decodeInt (sumValue (MaxInt + 1))).toOption = some MinInt
    ∧ (decodeInt (sumValue (MaxInt + 1025))).toOption = some MinInt
    ∧ (decodeInt (sumValue (MaxInt + 1026))).toOption = Option.none
    ∧ (decodeInt (sumValue (MaxInt + MaxInt))).toOption = Option.none
    ∧ (decodeInt (sumValue MinInt)).toOption = some MinInt
    ∧ (decodeInt (sumValue (MinInt - 1))).toOption = some MinInt
    ∧ (decodeInt (sumValue (MinInt + MinInt))).toOption = some MinInt := by
  decide

theorem decodeInto_of_fits (g : Group) (o : Operator) (h : fitsInt g.sum = true) :
    g.decodeInto o = .ok { ID := g._id.getD o.ID, Sum := g.sum } := by
  simp [Group.decodeInto, sumValue, decodeInt, h]

theorem decodeOperators_ok :
    ∀ (gs : List Group) (acc : Slice Operator), (∀ g ∈ gs, fitsInt g.sum = true) →
      ∃ os, decodeOperators gs acc = .ok os ∧ os.toList = acc.toList ++ gs.map Group.toOperator
  | [], acc, _ => ⟨acc, rfl, by simp⟩
  | g :: gs, acc, h => by
    have hg : fitsInt g.sum = true := h g (List.mem_cons_self _ _)
    obtain ⟨os, h1, h2⟩ := decodeOperators_ok gs (acc.append g.toOperator)
      (fun x hx => h x (List.mem_cons_of_mem _ hx))
    refine ⟨os, ?_, ?_⟩
    · simp only [decodeOperators, decodeInto_of_fits g Operator.zero hg]
      exact h1
    · rw [h2]
      simp [Slice.append, Slice.toList]

theorem decodeOperators_of_decodes :
    ∀ (gs : List Group) (acc : Slice Operator), (∀ g ∈ gs, g.decodes = true) →
      ∃ os, decodeOperators gs acc = .ok os
  | [], acc, _ => ⟨acc, rfl⟩
  | g :: gs, acc, h => by
    have hg : g.decodes = true := h g (List.mem_cons_self _ _)
    unfold Group.decodes at hg
    cases hd : g.decodeInto Operator.zero with
    | error e => simp [hd] at hg
    | ok o =>
      obtain ⟨os, hos⟩ := decodeOperators_of_decodes gs (acc.append o)
        (fun x hx => h x (List.mem_cons_of_mem _ hx))
      exact ⟨os, by simp only [decodeOperators, hd]; exact hos⟩

theorem groups_fit (c : Collection)
    (hfit : ∀ k ∈ c.map (fun d => d.operator), fitsInt (totalNominal c k) = true) :
    ∀ g ∈ sortStage (groupStage c), fitsInt g.sum = true := by
  obtain ⟨_, hkeys, hsum⟩ := groupStage_spec c
  intro g hg
  have hg' : g ∈ groupStage c := (sortStage_perm (groupStage c)).mem_iff.mp hg
  rw [hsum g hg']
  exact hfit _ ((hkeys _).mp (List.mem_map.mpr ⟨g, hg', rfl⟩))

theorem readLeaderboard_eq_ok (f : Faults) (c : Collection) (os : Slice Operator)
    (hfit : ∀ k ∈ c.map (fun d => d.operator), fitsInt (totalNominal c k) = true)
    (h : readLeaderboard f c = .written StatusOK (.operators os)) :
    os.toList = (sortStage (groupStage c)).map Group.toOperator := by
  obtain ⟨os', hos', hlist⟩ := decodeOperators_ok (sortStage (groupStage c)) .nil
    (groups_fit c hfit)
  unfold readLeaderboard Aggregate at h
  cases hf : f.call with
  | some e => simp [hf] at h
  | none =>
    cases hcur : f.cursor with
    | some ne =>
      simp only [hf, Cursor.over, hcur] at h
      split at h
      · exact Outcome.noConfusion h
      · simp [getError] at h
    | none =>
      simp only [hf, Cursor.over, hcur, hos'] at h
      simp only [Outcome.written.injEq, Payload.operators.injEq, true_and] at h
      subst h
      simpa [Slice.toList] using hlist

/-- C2 (amended): for every collection in which the total of `nominal` of
each operator fits Go's `int`, `readLeaderboard` returns a list of entries,
and every list of entries it returns is sorted non-increasing by sum: of every
two adjacent entries the earlier has a sum greater than or equal to the
later. -/
theorem readLeaderboard_sorted (c : Collection)
    (hfit : ∀ k ∈ c.map (fun d => d.operator), fitsInt (totalNominal c k) = true) :
    (∃ os, readLeaderboard Faults.none c = .written StatusOK (.operators os))
    ∧ ∀ (f : Faults) (os : Slice Operator),
        readLeaderboard f c = .written StatusOK (.operators os) →
        List.Chain' (fun a b : Operator => a.Sum ≥ b.Sum) os.toList := by
  constructor
  · obtain ⟨os, hos, _⟩ := decodeOperators_ok (sortStage (groupStage c)) .nil
      (groups_fit c hfit)
    exact ⟨os, by simp [readLeaderboard, Aggregate, Faults.none, Cursor.over, hos]⟩
  · intro f os h
    rw [readLeaderboard_eq_ok f c os hfit h]
    apply List.Pairwise.chain'
    rw [List.pairwise_map]
    exact sortStage_sorted (groupStage c)

theorem getD_injective_on_keys (c : Collection)
    (hmix : ¬ (Option.none ∈ c.map (fun d => d.operator)
      ∧ some "" ∈ c.map (fun d => d.operator)))
    (a b : Option String) (ha : a ∈ c.map (fun d => d.operator))
    (hb : b ∈ c.map (fun d => d.operator)) (hab : a.getD "" = b.getD "") : a = b := by
  cases a with
  | none =>
    cases b with
    | none => rfl
    | some s =>
      simp only [Option.getD_none, Option.getD_some] at hab
      subst hab
      exact absurd ⟨ha, hb⟩ hmix
  | some s =>
    cases b with
    | none =>
      simp only [Option.getD_none, Option.getD_some] at hab
      subst hab
      exact absurd ⟨hb, ha⟩ hmix
    | some t =>
      simp only [Option.getD_some] at hab
      rw [hab]

theorem totalNominal_eq_operatorTotal (c : Collection)
    (hmix : ¬ (Option.none ∈ c.map (fun d => d.operator)
      ∧ some "" ∈ c.map (fun d => d.operator)))
    (k : Option String) (hk : k ∈ c.map (fun d => d.operator)) :
    totalNominal c k = operatorTotal c (k.getD "") := by
  unfold totalNominal operatorTotal
  congr 2
  apply List.filter_congr
  intro d hd
  have hdk : d.operator ∈ c.map (fun d => d.operator) := List.mem_map.mpr ⟨d, hd, rfl⟩
  by_cases h : d.operator = k
  · simp [h]
  · have h' : ¬ d.operator.getD "" = k.getD "" :=
      fun hg => h (getD_injective_on_keys c hmix _ _ hdk hk hg)
    simp [h, h']

/-- The leaderboard by stored keys: when the total of each operator key fits
Go's `int`, `readLeaderboard` returns the entries of a list of groups that has
exactly one group for each operator key occurring among the stored records,
each with the total of `nominal` over the records of that key.  A key is the
stored `operator` field, so the records without the field and the records with
an empty one are two keys. -/
theorem readLeaderboard_groups (c : Collection)
    (hfit : ∀ k ∈ c.map (fun d => d.operator), fitsInt (totalNominal c k) = true) :
    ∃ (gs : List Group) (os : Slice Operator),
      readLeaderboard Faults.none c = .written StatusOK (.operators os)
      ∧ os.toList = gs.map Group.toOperator
      ∧ (gs.map (fun g => g._id)).Nodup
      ∧ (∀ k, k ∈ gs.map (fun g => g._id) ↔ k ∈ c.map (fun d => d.operator))
      ∧ (∀ g ∈ gs, g.sum = totalNominal c g._id) := by
  obtain ⟨hnd, hkeys, hsum⟩ := groupStage_spec c
  have hperm := sortStage_perm (groupStage c)
  have hnd' : ((sortStage (groupStage c)).map (fun g => g._id)).Nodup :=
    (List.Perm.nodup_iff (hperm.map _)).mpr hnd
  have hkeys' : ∀ k, k ∈ (sortStage (groupStage c)).map (fun g => g._id)
      ↔ k ∈ c.map (fun d => d.operator) := fun k =>
    ((hperm.map (fun g : Group => g._id)).mem_iff).trans (hkeys k)
  have hsum' : ∀ g ∈ sortStage (groupStage c), g.sum = totalNominal c g._id :=
    fun g hg => hsum g (hperm.mem_iff.mp hg)
  have hfits : ∀ g ∈ sortStage (groupStage c), fitsInt g.sum = true := by
    intro g hg
    rw [hsum' g hg]
    exact hfit _ ((hkeys' _).mp (List.mem_map.mpr ⟨g, hg, rfl⟩))
  obtain ⟨os, hos, hlist⟩ := decodeOperators_ok (sortStage (groupStage c)) .nil hfits
  have hlist' : os.toList = (sortStage (groupStage c)).map Group.toOperator := by
    simpa [Slice.toList] using hlist
  refine ⟨sortStage (groupStage c), os, ?_, hlist', hnd', hkeys', hsum'⟩
  simp [readLeaderboard, Aggregate, Faults.none, Cursor.over, hos]

/-- C1 (amended): for every collection in which the total of `nominal` of each
operator fits Go's `int`, and which does not hold both a record stored without
an `operator` field and a record stored with an empty one, `readLeaderboard`
returns a list with exactly one entry for each distinct operator value that
the records read back with and no entry for any other operator, and the sum
of each entry is the arithmetic total of `nominal` over the records that share
that operator. -/
theorem readLeaderboard_one_entry_per_operator (c : Collection)
    (hfit : ∀ k ∈ c.map (fun d => d.operator), fitsInt (totalNominal c k) = true)
    (hmix : ¬ (Option.none ∈ c.map (fun d => d.operator)
      ∧ some "" ∈ c.map (fun d => d.operator))) :
    ∃ os : Slice Operator,
      readLeaderboard Faults.none c = .written StatusOK (.operators os)
      ∧ (os.toList.map (fun o => o.ID)).Nodup
      ∧ (∀ s, s ∈ os.toList.map (fun o => o.ID) ↔ s ∈ c.map (fun d => d.operator.getD ""))
      ∧ (∀ o ∈ os.toList, o.Sum = operatorTotal c o.ID) := by
  obtain ⟨gs, os, hres, hlist, hnd, hkeys, hsum⟩ := readLeaderboard_groups c hfit
  refine ⟨os, hres, ?_, ?_, ?_⟩
  · rw [hlist, List.map_map]
    have : ((fun o : Operator => o.ID) ∘ Group.toOperator)
        = (fun k : Option String => k.getD "") ∘ (fun g : Group => g._id) := rfl
    rw [this, ← List.map_map]
    apply List.Nodup.map_on _ hnd
    intro a ha b hb hab
    exact getD_injective_on_keys c hmix a b ((hkeys a).mp ha) ((hkeys b).mp hb) hab
  · intro s
    rw [hlist, List.map_map]
    constructor
    · intro hs
      obtain ⟨g, hg, rfl⟩ := List.mem_map.mp hs
      obtain ⟨d, hd, hdk⟩ := List.mem_map.mp ((hkeys g._id).mp (List.mem_map.mpr ⟨g, hg, rfl⟩))
      exact List.mem_map.mpr ⟨d, hd, by simp [hdk, Group.toOperator]⟩
    · intro hs
      obtain ⟨d, hd, rfl⟩ := List.mem_map.mp hs
      obtain ⟨g, hg, hgk⟩ := List.mem_map.mp ((hkeys d.operator).mpr (List.mem_map.mpr ⟨d, hd, rfl⟩))
      exact List.mem_map.mpr ⟨g, hg, by simp [hgk, Group.toOperator]⟩
  · intro o ho
    rw [hlist] at ho
    obtain ⟨g, hg, rfl⟩ := List.mem_map.mp ho
    show g.sum = operatorTotal c (g._id.getD "")
    rw [hsum g hg]
    exact totalNominal_eq_operatorTotal c hmix _
      ((hkeys _).mp (List.mem_map.mpr ⟨g, hg, rfl⟩))

/-- C1 (witness): the two records of operator X with nominal 10000 and 5000
give the single entry of X with sum 15000. -/
theorem readLeaderboard_one_entry_per_operator_witness :
    (∀ k ∈ [sampleDocument 1 "0811" "A" "X" 10000, sampleDocument 2 "0822" "B" "X" 5000].map
        (fun d => d.operator),
      fitsInt (totalNominal
        [sampleDocument 1 "0811" "A" "X" 10000, sampleDocument 2 "0822" "B" "X" 5000] k) = true)
    ∧ readLeaderboard Faults.none
        [sampleDocument 1 "0811" "A" "X" 10000, sampleDocument 2 "0822" "B" "X" 5000]
      = .written StatusOK (.operators (.elems [{ ID := "X", Sum := 15000 }]))
    ∧ ∃ os : Slice Operator,
      readLeaderboard Faults.none
          [sampleDocument 1 "0811" "A" "X" 10000, sampleDocument 2 "0822" "B" "X" 5000]
        = .written StatusOK (.operators os)
      ∧ (os.toList.map (fun o => o.ID)).Nodup
      ∧ (∀ o ∈ os.toList, o.Sum = operatorTotal
          [sampleDocument 1 "0811" "A" "X" 10000, sampleDocument 2 "0822" "B" "X" 5000] o.ID) :=
  ⟨by decide, by decide,
    (readLeaderboard_one_entry_per_operator
      [sampleDocument 1 "0811" "A" "X" 10000, sampleDocument 2 "0822" "B" "X" 5000]
      (by decide) (by decide)).imp fun _ h => ⟨h.1, h.2.1, h.2.2.2⟩⟩

/-- C1 (counterexample): after a create without operator (nominal 5), a create
with operator X (nominal 7) and an update of the second record that leaves the
operator out, both records read back with the operator `""`, yet the
leaderboard has two entries for `""`, with sums 7 and 5, and none with their
total 12. -/
theorem readLeaderboard_two_entries_for_one_operator :
    (decodeTransactions mixedCollection).toList.map (fun t => (t.Operator, t.Nominal))
      = [("", 5), ("", 7)]
    ∧ readLeaderboard Faults.none mixedCollection
      = .written StatusOK (.operators (.elems [{ ID := "", Sum := 7 }, { ID := "", Sum := 5 }]))
    ∧ ¬ ((Slice.elems [({ ID := "", Sum := 7 } : Operator), { ID := "", Sum := 5 }]).toList.map
          (fun o => o.ID)).Nodup
    ∧ operatorTotal mixedCollection "" = 12 := by
  decide

/-- The total of an operator that is no `int` ends the process: the sum comes
back as a double, it does not decode, and `readLeaderboard` is fatal. -/
theorem readLeaderboard_overflow_fatal :
    readLeaderboard Faults.none
      [sampleDocument 1 "0811" "A" "X" MaxInt, sampleDocument 2 "0822" "B" "X" MaxInt]
      = .fatal ErrOverflow := by
  decide

/-- C2 (witness): the records of Y with 100 and of X with 200 are listed as X
with 200, then Y with 100. -/
theorem readLeaderboard_sorted_witness :
    (∀ k ∈ [sampleDocument 1 "0811" "A" "Y" 100, sampleDocument 2 "0822" "B" "X" 200].map
        (fun d => d.operator),
      fitsInt (totalNominal
        [sampleDocument 1 "0811" "A" "Y" 100, sampleDocument 2 "0822" "B" "X" 200] k) = true)
    ∧ readLeaderboard Faults.none
        [sampleDocument 1 "0811" "A" "Y" 100, sampleDocument 2 "0822" "B" "X" 200]
      = .written StatusOK
          (.operators (.elems [{ ID := "X", Sum := 200 }, { ID := "Y", Sum := 100 }]))
    ∧ List.Chain' (fun a b : Operator => a.Sum ≥ b.Sum)
        (Slice.elems [({ ID := "X", Sum := 200 } : Operator), { ID := "Y", Sum := 100 }]).toList :=
  ⟨by decide, by decide,
    (readLeaderboard_sorted
      [sampleDocument 1 "0811" "A" "Y" 100, sampleDocument 2 "0822" "B" "X" 200]
      (by decide)).2 Faults.none _ (by decide)⟩

/-- C2 (counterexample): after the creates of X with the greatest `int`, of X
with 1 and of Y with 100, the total of X is 2 to the 63, which the store
returns as a double and the driver converts to the least `int`: the
leaderboard is X with that negative sum, then Y with 100, which is not sorted
non-increasing. -/
theorem readLeaderboard_unsorted_after_wrap :
    readLeaderboard Faults.none wrappedCollection
      = .written StatusOK
          (.operators (.elems [{ ID := "X", Sum := MinInt }, { ID := "Y", Sum := 100 }]))
    ∧ ¬ List.Chain' (fun a b : Operator => a.Sum ≥ b.Sum)
        (Slice.elems [({ ID := "X", Sum := MinInt } : Operator), { ID := "Y", Sum := 100 }]).toList := by
  refine ⟨by decide, ?_⟩
  intro h
  have hpair : List.Chain' (fun a b : Operator => a.Sum ≥ b.Sum)
      [{ ID := "X", Sum := MinInt }, { ID := "Y", Sum := 100 }] := h
  rw [List.chain'_pair] at hpair
  exact absurd hpair (by decide)

/-! ## Paths that are no identifier -/

/-- A path of 24 hexadecimal digits parses without an error. -/
theorem ObjectIDFromHex_valid (s : String) (h : validHex s = true) :
    (ObjectIDFromHex s).2 = Option.none := by
  simp only [validHex, Bool.and_eq_true, decide_eq_true_eq] at h
  obtain ⟨bs, hbs, hlen⟩ := decodeHex_isSome_of_all s.data 12 h.1 h.2
  unfold ObjectIDFromHex
  rw [if_neg (by simp [h.1])]
  simp [hbs, hlen]

/-- C8 (amended): for every path id that is not 24 hexadecimal digits and
every collection in which no record has the zero identifier, the parse error
is dropped, the lookup of `readTransactionById` runs with the zero identifier,
and the outcome is no exit of the process but the uniform error response:
status 500 and the body with `status` 500 and the store's error text as
`message`. -/
theorem readTransactionById_invalid_path (f : Faults) (c : Collection) (path : String)
    (hp : validHex path = false) (hz : ∀ d ∈ c, d._id ≠ NilObjectID) :
    ObjectIDFromHex path = (NilObjectID, some ErrInvalidHex)
    ∧ readTransactionById f c path
        = .written 500 (.errorResponse
            { StatusCode := 500, ErrorMessage := f.call.getD ErrNoDocuments })
    ∧ (Payload.errorResponse
          { StatusCode := 500, ErrorMessage := f.call.getD ErrNoDocuments }).toJson
        = .obj [("status", .num 500), ("message", .str (f.call.getD ErrNoDocuments))] := by
  have hid := ObjectIDFromHex_invalid path hp
  refine ⟨hid, ?_, rfl⟩
  rw [readTransactionById_absent f c path]
  · rfl
  · rw [hid]
    intro hmem
    obtain ⟨d, hd, hdz⟩ := List.mem_map.mp hmem
    exact hz d hd hdz

/-- C8 (witness): the path `xyz` on a collection of one record. -/
theorem readTransactionById_invalid_path_witness :
    validHex "xyz" = false
    ∧ (∀ d ∈ [sampleDocument 1 "0811" "A" "X" 10000], d._id ≠ NilObjectID)
    ∧ readTransactionById Faults.none [sampleDocument 1 "0811" "A" "X" 10000] "xyz"
        = .written 500 (.errorResponse { StatusCode := 500, ErrorMessage := ErrNoDocuments }) :=
  ⟨by decide, by decide,
    (readTransactionById_invalid_path Faults.none [sampleDocument 1 "0811" "A" "X" 10000] "xyz"
      (by decide) (by decide)).2.1⟩

/-- C8 (counterexample): on a collection that holds a record with the zero
identifier, the path `xyz`, which is no identifier, is answered with status
200 and that record, not with the error response. -/
theorem readTransactionById_invalid_path_finds_zero_id :
    validHex "xyz" = false
    ∧ readTransactionById Faults.none [zeroIdDocument] "xyz"
        = .written StatusOK (.transaction
            { ID := NilObjectID, Phone := "0811", Name := "A", Operator := "X",
              Nominal := 10000 })
    ∧ ¬ ∃ msg, readTransactionById Faults.none [zeroIdDocument] "xyz"
        = .written 500 (.errorResponse { StatusCode := 500, ErrorMessage := msg }) := by
  refine ⟨by decide, by decide, ?_⟩
  rintro ⟨msg, h⟩
  have h200 : readTransactionById Faults.none [zeroIdDocument] "xyz"
      = .written StatusOK (.transaction
          { ID := NilObjectID, Phone := "0811", Name := "A", Operator := "X",
            Nominal := 10000 }) := by decide
  rw [h200] at h
  simp [StatusOK] at h

theorem createTransaction_snd (f : Faults) (newID : ObjectID) (c : Collection)
    (body : RequestBody) :
    (createTransaction f newID c body).2
      = (InsertOne f newID c (body.decodeInto Transaction.zero)).2 := by
  unfold createTransaction
  simp only
  split <;> simp_all

/-- A create never stores the zero identifier when the driver generates none. -/
theorem createTransaction_nonzero_ids (f : Faults) (newID : ObjectID) (c : Collection)
    (body : RequestBody) (hnew : newID ≠ NilObjectID) (hz : ∀ d ∈ c, d._id ≠ NilObjectID) :
    ∀ d ∈ (createTransaction f newID c body).2, d._id ≠ NilObjectID := by
  rw [createTransaction_snd]
  unfold InsertOne
  cases hf : f.call with
  | some e => exact hz
  | none =>
    simp only
    split
    · exact hz
    · intro d hd
      simp only [List.mem_append, List.mem_singleton] at hd
      rcases hd with hd | rfl
      · exact hz d hd
      · simp only [Transaction.toDocument]
        split
        · exact hnew
        · next h => exact h

/-! ## Response bodies -/

/-- C5 (the code at the failing input): the record created from a body with
only a name reads back with an empty phone and nominal 0, yet the response of
`updateTransaction` to a body with phone 0811 and nominal 9 shows the phone
0811 and the nominal 9 of the body. -/
theorem updateTransaction_response_mixes_body :
    readTransactionById Faults.none nameOnlyCollection (sampleID 1).Hex
      = .written StatusOK (.transaction
          { ID := sampleID 1, Phone := "", Name := "A", Operator := "", Nominal := 0 })
    ∧ (updateTransaction Faults.none nameOnlyCollection (sampleID 1).Hex
        (.object Option.none (some "0811") Option.none Option.none (some 9))).1
      = .written StatusOK (.transaction
          { ID := sampleID 1, Phone := "0811", Name := "A", Operator := "", Nominal := 9 }) := by
  decide

/-- C6 (the code at the failing input): on the empty collection
`readAllTransaction` encodes its nil slice, and the body written is the JSON
`null`, which is no array. -/
theorem readAllTransaction_empty_is_null :
    readAllTransaction Faults.none [] = .written StatusOK (.transactions .nil)
    ∧ (Payload.transactions .nil).toJson = Json.null
    ∧ (Payload.transactions .nil).toJson ≠ Json.arr [] :=
  ⟨rfl, rfl, fun h => Json.noConfusion h⟩

/-! ## Failures of the store -/

theorem readLeaderboard_cursor_error (c : Collection) (n : Nat) (e : String)
    (h : ∀ g ∈ (sortStage (groupStage c)).take n, g.decodes = true) :
    readLeaderboard { call := Option.none, cursor := some (n, e) } c = getError e := by
  obtain ⟨os, hos⟩ := decodeOperators_of_decodes ((sortStage (groupStage c)).take n) .nil h
  simp [readLeaderboard, Aggregate, Cursor.over, hos]

theorem handlers_ignore_invalid_path (f : Faults) (c : Collection) (path : String)
    (body : RequestBody) (hp : validHex path = false) :
    readTransactionById f c path = readTransactionById f c NilObjectID.Hex
    ∧ updateTransaction f c path body = updateTransaction f c NilObjectID.Hex body
    ∧ deleteTransaction f c path = deleteTransaction f c NilObjectID.Hex := by
  have h1 : (ObjectIDFromHex path).1 = NilObjectID := by rw [ObjectIDFromHex_invalid path hp]
  have h2 : (ObjectIDFromHex NilObjectID.Hex).1 = NilObjectID := by rw [ObjectIDFromHex_Hex]
  simp only [readTransactionById, updateTransaction, deleteTransaction, h1, h2, and_self]

/-- C9 (amended): the outcome of a failure of the store, handler by handler.
A failure of the call or of the cursor in `readAllTransaction`, of the call in
`deleteTransaction` and of the call in `readLeaderboard` (the setup of the
aggregation) is fatal: the process exits and no response is written.  A
failure of the call in `readTransactionById` and in `updateTransaction`, and a
failure of the cursor in `readLeaderboard` when every result delivered before
it decodes into an `Operator`, is answered with status 500 and the body of
`status` 500 and the error text.  A path that is no identifier is handled as
the zero identifier and a malformed body as the empty object: neither is
rejected. -/
theorem store_failure_taxonomy :
    (∀ (c : Collection) (e : String) (cur : Option (Nat × String)),
        readAllTransaction { call := some e, cursor := cur } c = .fatal e)
    ∧ (∀ (c : Collection) (n : Nat) (e : String),
        readAllTransaction { call := Option.none, cursor := some (n, e) } c = .fatal e)
    ∧ (∀ (c : Collection) (path e : String) (cur : Option (Nat × String)),
        deleteTransaction { call := some e, cursor := cur } c path = (.fatal e, c))
    ∧ (∀ (c : Collection) (e : String) (cur : Option (Nat × String)),
        readLeaderboard { call := some e, cursor := cur } c = .fatal e)
    ∧ (∀ (c : Collection) (path e : String) (cur : Option (Nat × String)),
        readTransactionById { call := some e, cursor := cur } c path
          = .written 500 (.errorResponse { StatusCode := 500, ErrorMessage := e }))
    ∧ (∀ (c : Collection) (path : String) (body : RequestBody) (e : String)
        (cur : Option (Nat × String)),
        updateTransaction { call := some e, cursor := cur } c path body
          = (.written 500 (.errorResponse { StatusCode := 500, ErrorMessage := e }), c))
    ∧ (∀ (c : Collection) (n : Nat) (e : String),
        (∀ g ∈ (sortStage (groupStage c)).take n, g.decodes = true) →
        readLeaderboard { call := Option.none, cursor := some (n, e) } c
          = .written 500 (.errorResponse { StatusCode := 500, ErrorMessage := e }))
    ∧ (∀ (e : String), (Payload.errorResponse { StatusCode := 500, ErrorMessage := e }).toJson
          = .obj [("status", .num 500), ("message", .str e)])
    ∧ (∀ (f : Faults) (c : Collection) (path : String) (body : RequestBody),
        validHex path = false →
        readTransactionById f c path = readTransactionById f c NilObjectID.Hex
        ∧ updateTransaction f c path body = updateTransaction f c NilObjectID.Hex body
        ∧ deleteTransaction f c path = deleteTransaction f c NilObjectID.Hex)
    ∧ (∀ (f : Faults) (newID : ObjectID) (c : Collection) (path : String),
        createTransaction f newID c .malformed
          = createTransaction f newID c
              (.object Option.none Option.none Option.none Option.none Option.none)
        ∧ updateTransaction f c path .malformed
          = updateTransaction f c path
              (.object Option.none Option.none Option.none Option.none Option.none)) := by
  refine ⟨?_, ?_, ?_, ?_, ?_, ?_, ?_, ?_, ?_, ?_⟩
  · intro c e cur; rfl
  · intro c n e; rfl
  · intro c path e cur; rfl
  · intro c e cur; rfl
  · intro c path e cur; rfl
  · intro c path body e cur; rfl
  · intro c n e h
    rw [readLeaderboard_cursor_error c n e h]
    rfl
  · intro e; rfl
  · intro f c path body hp
    exact handlers_ignore_invalid_path f c path body hp
  · intro f newID c path
    exact ⟨rfl, rfl⟩

/-- C9 (witness): on the records of X with the least `int` twice and of Y
with 1, the cursor of the leaderboard fails after two results; both decode
(the total of X as the least `int`) and the answer is the status 500.  The
path `xyz` is looked up as the zero identifier. -/
theorem store_failure_taxonomy_witness :
    (∀ g ∈ (sortStage (groupStage
        [sampleDocument 1 "0811" "A" "X" MinInt, sampleDocument 2 "0822" "B" "X" MinInt,
          sampleDocument 3 "0833" "C" "Y" 1])).take 2,
      g.decodes = true)
    ∧ readLeaderboard { call := Option.none, cursor := some (2, "connection reset") }
        [sampleDocument 1 "0811" "A" "X" MinInt, sampleDocument 2 "0822" "B" "X" MinInt,
          sampleDocument 3 "0833" "C" "Y" 1]
      = .written 500 (.errorResponse { StatusCode := 500, ErrorMessage := "connection reset" })
    ∧ validHex "xyz" = false
    ∧ readTransactionById Faults.none [sampleDocument 1 "0811" "A" "Y" 100] "xyz"
      = readTransactionById Faults.none [sampleDocument 1 "0811" "A" "Y" 100] NilObjectID.Hex :=
  ⟨by decide,
    store_failure_taxonomy.2.2.2.2.2.2.1
      [sampleDocument 1 "0811" "A" "X" MinInt, sampleDocument 2 "0822" "B" "X" MinInt,
        sampleDocument 3 "0833" "C" "Y" 1] 2
      "connection reset" (by decide),
    by decide,
    (store_failure_taxonomy.2.2.2.2.2.2.2.2.1 Faults.none
      [sampleDocument 1 "0811" "A" "Y" 100] "xyz" .malformed (by decide)).1⟩

/-- C9 (counterexample): on two records of X with the greatest `int` the
cursor of the leaderboard fails after one result; that result, the total of X
as a double above 2 to the 63, does not decode, and the process exits in
`log.Fatal` before the error of the cursor is looked at: no status 500 is
written. -/
theorem readLeaderboard_cursor_error_fatal :
    readLeaderboard { call := Option.none, cursor := some (1, "connection reset") }
        [sampleDocument 1 "0811" "A" "X" MaxInt, sampleDocument 2 "0822" "B" "X" MaxInt]
      = .fatal ErrOverflow
    ∧ readLeaderboard { call := Option.none, cursor := some (1, "connection reset") }
        [sampleDocument 1 "0811" "A" "X" MaxInt, sampleDocument 2 "0822" "B" "X" MaxInt]
      ≠ .written 500 (.errorResponse { StatusCode := 500, ErrorMessage := "connection reset" }) := by
  decide

/-! ## Witnesses -/

/-- C4 (witness): the create of the record of phone 0811, name A, operator X
and nominal 10000 on the empty collection, and the read of the returned id. -/
theorem createTransaction_then_read_witness :
    createTransaction Faults.none (sampleID 1) []
        (.object Option.none (some "0811") (some "A") (some "X") (some 10000))
      = (.written StatusOK (.insertOneResult (sampleID 1)),
          [sampleDocument 1 "0811" "A" "X" 10000])
    ∧ readTransactionById Faults.none [sampleDocument 1 "0811" "A" "X" 10000] (sampleID 1).Hex
      = .written StatusOK (.transaction
          { ID := sampleID 1, Phone := "0811", Name := "A", Operator := "X",
            Nominal := 10000 }) :=
  ⟨by decide,
    createTransaction_then_read Faults.none (sampleID 1) []
      [sampleDocument 1 "0811" "A" "X" 10000]
      (.object Option.none (some "0811") (some "A") (some "X") (some 10000)) (sampleID 1)
      (by decide)⟩

/-- C7 (witness): the delete of the only record, then the read of its id. -/
theorem deleteTransaction_then_read_fails_witness :
    ([sampleDocument 1 "0811" "A" "X" 10000].map (fun d => d._id)).Nodup
    ∧ (ObjectIDFromHex (sampleID 1).Hex).1
        ∈ [sampleDocument 1 "0811" "A" "X" 10000].map (fun d => d._id)
    ∧ readTransactionById Faults.none
        (deleteTransaction Faults.none [sampleDocument 1 "0811" "A" "X" 10000]
          (sampleID 1).Hex).2 (sampleID 1).Hex
      = .written 500 (.errorResponse { StatusCode := 500, ErrorMessage := ErrNoDocuments }) :=
  ⟨by decide, by decide,
    (deleteTransaction_then_read_fails Faults.none [sampleDocument 1 "0811" "A" "X" 10000]
      (sampleID 1).Hex (by decide) (by decide)).2.1⟩

/-- C10 (witness): the update of the only record by a body that carries just
a phone leaves a record whose name and operator are empty strings. -/
theorem updateTransaction_sets_fields_witness :
    Faults.none.call = Option.none
    ∧ [sampleDocument 1 "0811" "A" "X" 10000].find?
        (fun x => x._id = (ObjectIDFromHex (sampleID 1).Hex).1)
      = some (sampleDocument 1 "0811" "A" "X" 10000)
    ∧ (updateTransaction Faults.none [sampleDocument 1 "0811" "A" "X" 10000] (sampleID 1).Hex
        (.object Option.none (some "0999") Option.none Option.none (some 7))).2
      = [{ _id := sampleID 1, phone := some "0999", name := some "", operator := some "",
           nominal := some 10000 }]
    ∧ ∃ t, (updateTransaction Faults.none [sampleDocument 1 "0811" "A" "X" 10000]
        (sampleID 1).Hex
        (.object Option.none (some "0999") Option.none Option.none (some 7))).1
      = .written StatusOK (.transaction t) :=
  ⟨rfl, by decide, by decide,
    (updateTransaction_sets_fields Faults.none [sampleDocument 1 "0811" "A" "X" 10000]
      (sampleID 1).Hex (.object Option.none (some "0999") Option.none Option.none (some 7))
      (sampleDocument 1 "0811" "A" "X" 10000) rfl (by decide)).1⟩

/-! ## What the handlers keep true of the collection -/

theorem removeFirst_sublist (id : ObjectID) : ∀ c : Collection, (removeFirst id c).Sublist c
  | [] => List.Sublist.refl _
  | d :: ds => by
    simp only [removeFirst]
    split
    · exact List.sublist_cons_self d ds
    · exact (removeFirst_sublist id ds).cons₂ d

theorem deleteTransaction_snd (f : Faults) (c : Collection) (path : String) :
    (deleteTransaction f c path).2 = (DeleteOne f c (ObjectIDFromHex path).1).2 := by
  unfold deleteTransaction
  simp only
  split <;> simp_all

theorem deleteTransaction_sublist (f : Faults) (c : Collection) (path : String) :
    (deleteTransaction f c path).2.Sublist c := by
  rw [deleteTransaction_snd]
  unfold DeleteOne
  split
  · exact List.Sublist.refl _
  · split
    · exact removeFirst_sublist _ c
    · exact List.Sublist.refl _

/-- The identifiers of the collection stay unique under every handler: the
store refuses an insert whose `_id` is in use, an update keeps every `_id`,
and a delete only removes a record. -/
theorem handlers_keep_ids_unique (f : Faults) (newID : ObjectID) (c : Collection)
    (path : String) (body : RequestBody) (h : (c.map (fun d => d._id)).Nodup) :
    ((createTransaction f newID c body).2.map (fun d => d._id)).Nodup
    ∧ ((updateTransaction f c path body).2.map (fun d => d._id)).Nodup
    ∧ ((deleteTransaction f c path).2.map (fun d => d._id)).Nodup := by
  refine ⟨?_, ?_, ?_⟩
  · rw [createTransaction_snd]
    unfold InsertOne
    split
    · exact h
    · simp only
      split
      · exact h
      · next hany =>
        rw [List.map_append, List.nodup_append]
        refine ⟨h, List.nodup_singleton _, ?_⟩
        intro a ha hb
        simp only [List.map_cons, List.map_nil, List.mem_singleton] at hb
        subst hb
        obtain ⟨x, hx, hxa⟩ := List.mem_map.mp ha
        exact hany (List.any_eq_true.mpr ⟨x, hx, decide_eq_true hxa⟩)
  · have hmap := congrArg (List.map Prod.fst)
      (FindOneAndUpdate_map_nominal f c (ObjectIDFromHex path).1
        (body.decodeInto Transaction.zero).Phone (body.decodeInto Transaction.zero).Name
        (body.decodeInto Transaction.zero).Operator)
    simp only [List.map_map] at hmap
    rw [updateTransaction_snd]
    exact hmap ▸ h
  · exact ((deleteTransaction_sublist f c path).map _).nodup h

/-- No handler stores a record with the zero identifier, as long as the
driver generates none. -/
theorem handlers_keep_ids_nonzero (f : Faults) (newID : ObjectID) (c : Collection)
    (path : String) (body : RequestBody) (hnew : newID ≠ NilObjectID)
    (h : ∀ d ∈ c, d._id ≠ NilObjectID) :
    (∀ d ∈ (createTransaction f newID c body).2, d._id ≠ NilObjectID)
    ∧ (∀ d ∈ (updateTransaction f c path body).2, d._id ≠ NilObjectID)
    ∧ (∀ d ∈ (deleteTransaction f c path).2, d._id ≠ NilObjectID) := by
  refine ⟨createTransaction_nonzero_ids f newID c body hnew h, ?_, ?_⟩
  · have hmap := congrArg (List.map Prod.fst)
      (FindOneAndUpdate_map_nominal f c (ObjectIDFromHex path).1
        (body.decodeInto Transaction.zero).Phone (body.decodeInto Transaction.zero).Name
        (body.decodeInto Transaction.zero).Operator)
    simp only [List.map_map] at hmap
    rw [updateTransaction_snd]
    intro d hd hz
    have hmem : d._id ∈ c.map (fun d => d._id) := by
      have : d._id ∈ List.map (Prod.fst ∘ fun d : Document => (d._id, d.nominal)) c :=
        hmap ▸ List.mem_map.mpr ⟨d, hd, rfl⟩
      exact this
    obtain ⟨x, hx, hxd⟩ := List.mem_map.mp hmem
    exact h x hx (hxd.trans hz)
  · intro d hd
    exact h d ((deleteTransaction_sublist f c path).subset hd)

end Pulsa
